import Mathlib

/-!
# Verification of the NFL trivia Round Engine and Name-Matching Engine

Shallow embedding of the core of the `nfl-jim-trivia` repository:

* `src/src/state/gameMachine.ts` — the round state machine (`reducer`,
  `isValidAction`, `isValidRoundState`, `sanitizeGuess`, `clampScore`);
* `src/src/utils/optimizedFuzzy.ts` — the name matcher
  (`normalizeName`, `tokens`, `computeTokenSimilarity`, `computeMatch`,
  `OptimizedFuzzyMatcher.isNameMatch`, `BoundedCache`);
* `src/src/pages/Game.tsx` — the `onSubmitGuess` composition.

Modelling conventions:

* JavaScript numbers that the code only ever uses at integral values
  (timestamps, scores, hint counts) are modelled as `Int`; `Math.floor`
  on such values is the identity.  `Number.isFinite` is always true.
* JavaScript strings are Lean `String`s; string algorithms are written
  over `List Char` and wrapped.
* Throwing code is modelled with `Except`; the injectable
  `timeProvider.now()` is an explicit `now : Int` argument.
-/

namespace Trivia

/-! ## JavaScript string primitives -/

/-- The character class matched by JavaScript's `\s` (also the set trimmed
by `String.prototype.trim`): ASCII whitespace, NBSP, the Unicode space
separators, line/paragraph separators and the BOM. -/
def isJsWs (c : Char) : Bool :=
  c = ' ' ∨ c = '\t' ∨ c = '\n' ∨ c.toNat = 0x0b ∨ c.toNat = 0x0c ∨ c = '\r' ∨
  c.toNat = 0xa0 ∨ c.toNat = 0x1680 ∨
  (0x2000 ≤ c.toNat ∧ c.toNat ≤ 0x200a) ∨
  c.toNat = 0x2028 ∨ c.toNat = 0x2029 ∨ c.toNat = 0x202f ∨
  c.toNat = 0x205f ∨ c.toNat = 0x3000 ∨ c.toNat = 0xfeff

/-- `String.prototype.trim` on the character list. -/
def trimChars (l : List Char) : List Char :=
  ((l.dropWhile isJsWs).reverse.dropWhile isJsWs).reverse

/-- `text.trim()`. -/
def jsTrim (s : String) : String :=
  String.mk (trimChars s.data)

/-- Helper for `collapseWsChars`; the flag records whether the previous
character was whitespace (in which case further whitespace is dropped). -/
def collapseWsAux : Bool → List Char → List Char
  | _, [] => []
  | inWs, c :: rest =>
    if isJsWs c then
      if inWs then collapseWsAux true rest
      else ' ' :: collapseWsAux true rest
    else c :: collapseWsAux false rest

/-- `text.replace(/\s+/g, ' ')`: every maximal run of `\s` characters is
replaced by a single ASCII space. -/
def collapseWsChars (l : List Char) : List Char :=
  collapseWsAux false l

/-- `text.slice(0, n)` for `n ≥ 0`. -/
def jsSlice (n : Nat) (s : String) : String :=
  String.mk (s.data.take n)

/-- ASCII-only `toLowerCase`.  In the places the source applies
`toLowerCase` the string has already been restricted to
`[a-zA-Z0-9 ]`, where the JavaScript function agrees with the
ASCII mapping. -/
def jsLowerChar (c : Char) : Char :=
  if 'A' ≤ c ∧ c ≤ 'Z' then Char.ofNat (c.toNat + 32) else c

def jsToLower (s : String) : String :=
  String.mk (s.data.map jsLowerChar)

/-! ## gameMachine.ts -/

/-- `MAX_GUESSES` -/
def MAX_GUESSES : Nat := 3
/-- `MAX_HINTS` -/
def MAX_HINTS : Int := 5
/-- `MAX_SCORE` -/
def MAX_SCORE : Int := 10
/-- `MIN_SCORE` -/
def MIN_SCORE : Int := 0
/-- `MAX_GUESS_LENGTH` -/
def MAX_GUESS_LENGTH : Nat := 100
/-- `ROUND_SECONDS` from `src/src/utils/date.ts` -/
def ROUND_SECONDS : Int := 60

/-- Reveal reasons: `'giveup' | 'maxGuesses' | 'timeout' | 'solved'`. -/
inductive Reason
  | giveup | maxGuesses | timeout | solved
  deriving DecidableEq, Repr

/-- The `Action` union type.  Structural well-typedness (`type` tags,
field types) is enforced by the inductive; the residual dynamic checks
of `isValidAction` are modelled below. -/
inductive Action
  | start
  | tick (nowMs : Int)
  | guess (text : String)
  | hint
  | reveal (reason : Reason)
  | reset
  deriving DecidableEq, Repr

/-- The `RoundState` tagged union from `src/src/types.ts`. -/
inductive RoundState
  | idle
  | active (startedAtMs deadlineMs : Int) (guesses : List String)
      (hintsUsed score : Int)
  | revealed (endedAtMs : Int) (reason : Reason) (finalScore : Int)
      (guesses : List String) (hintsUsed : Int)
  deriving DecidableEq, Repr

/-- Error codes of `GameStateError`. -/
inductive GameCode
  | INVALID_ACTION | INVALID_STATE | INVALID_TRANSITION
  deriving DecidableEq, Repr

/-- `GameStateError(message, code, currentState, action)`. -/
structure GameStateError where
  message : String
  code : GameCode
  currentState : Option RoundState
  action : Option Action
  deriving DecidableEq, Repr

/-- `isValidAction` (the checks beyond structural typing):
a `tick` needs a finite positive `nowMs` (`Int` is always finite);
a `guess` needs text that is non-empty after trimming. -/
def isValidAction : Action → Bool
  | .start => true
  | .hint => true
  | .reset => true
  | .tick nowMs => nowMs > 0
  | .guess text => (jsTrim text).length > 0
  | .reveal _ => true

/-- `isValidRoundState` (the checks beyond structural typing). -/
def isValidRoundState : RoundState → Bool
  | .idle => true
  | .active startedAtMs deadlineMs guesses hintsUsed score =>
      guesses.length ≤ MAX_GUESSES ∧
      hintsUsed ≥ 0 ∧ hintsUsed ≤ MAX_HINTS ∧
      score ≥ MIN_SCORE ∧ score ≤ MAX_SCORE ∧
      startedAtMs > 0 ∧ deadlineMs > startedAtMs
  | .revealed endedAtMs _reason finalScore _guesses hintsUsed =>
      finalScore ≥ MIN_SCORE ∧ finalScore ≤ MAX_SCORE ∧
      hintsUsed ≥ 0 ∧ endedAtMs > 0

/-- `sanitizeGuess`: trim, truncate to 100 chars, collapse whitespace. -/
def sanitizeGuess (text : String) : String :=
  String.mk (collapseWsChars ((trimChars text.data).take MAX_GUESS_LENGTH))

/-- `clampScore`: clamp into `[MIN_SCORE, MAX_SCORE]`; `Math.floor` is the
identity on `Int`. -/
def clampScore (score : Int) : Int :=
  max MIN_SCORE (min MAX_SCORE score)

/-- `initialState()` -/
def initialState : RoundState := .idle

/-- The `action.type` string, used in error messages. -/
def actionTypeStr : Action → String
  | .start => "start"
  | .tick _ => "tick"
  | .guess _ => "guess"
  | .hint => "hint"
  | .reveal _ => "reveal"
  | .reset => "reset"

/-- `reducer(state, action)`.  `now` is the value the global
`timeProvider.now()` would return during this call. -/
def reduce (now : Int) (state : RoundState) (action : Action) :
    Except GameStateError RoundState :=
  if ¬ isValidRoundState state then
    .error ⟨"Invalid state provided to reducer", .INVALID_STATE,
      some state, some action⟩
  else if ¬ isValidAction action then
    .error ⟨"Invalid action provided to reducer", .INVALID_ACTION,
      some state, some action⟩
  else
    match state with
    | .idle =>
      match action with
      | .start =>
        let newState : RoundState :=
          .active now (now + ROUND_SECONDS * 1000) [] 0 5
        if ¬ isValidRoundState newState then
          .error ⟨"Generated invalid active state", .INVALID_STATE,
            some state, some action⟩
        else .ok newState
      | .reset => .ok state
      | a =>
        .error ⟨"Invalid action '" ++ actionTypeStr a ++ "' for idle state",
          .INVALID_TRANSITION, some state, some a⟩
    | .active startedAtMs deadlineMs guesses hintsUsed score =>
      match action with
      | .tick nowMs =>
        if nowMs < startedAtMs then
          .error ⟨"Tick time cannot be before game start", .INVALID_ACTION,
            some state, some action⟩
        else if nowMs ≥ deadlineMs then
          let newState : RoundState :=
            .revealed nowMs .timeout (clampScore (score - 1)) guesses hintsUsed
          if ¬ isValidRoundState newState then
            .error ⟨"Generated invalid revealed state from timeout",
              .INVALID_STATE, some state, some action⟩
          else .ok newState
        else .ok state
      | .guess text =>
        let sanitizedGuess := sanitizeGuess text
        if guesses.contains sanitizedGuess then .ok state
        else
          let guesses' := guesses ++ [sanitizedGuess]
          if guesses'.length ≥ MAX_GUESSES then
            let newState : RoundState :=
              .revealed now .maxGuesses (clampScore (score - 1)) guesses'
                hintsUsed
            if ¬ isValidRoundState newState then
              .error ⟨"Generated invalid revealed state from max guesses",
                .INVALID_STATE, some state, some action⟩
            else .ok newState
          else
            let newState : RoundState :=
              .active startedAtMs deadlineMs guesses' hintsUsed score
            if ¬ isValidRoundState newState then
              .error ⟨"Generated invalid active state after guess",
                .INVALID_STATE, some state, some action⟩
            else .ok newState
      | .hint =>
        if hintsUsed ≥ MAX_HINTS then .ok state
        else
          let newState : RoundState :=
            .active startedAtMs deadlineMs guesses (hintsUsed + 1)
              (clampScore (score - 1))
          if ¬ isValidRoundState newState then
            .error ⟨"Generated invalid active state after hint",
              .INVALID_STATE, some state, some action⟩
          else .ok newState
      | .reveal reason =>
        let newState : RoundState :=
          .revealed now reason (clampScore score) guesses hintsUsed
        if ¬ isValidRoundState newState then
          .error ⟨"Generated invalid revealed state from manual reveal",
            .INVALID_STATE, some state, some action⟩
        else .ok newState
      | a =>
        .error ⟨"Invalid action '" ++ actionTypeStr a ++ "' for active state",
          .INVALID_TRANSITION, some state, some a⟩
    | .revealed _ _ _ _ _ =>
      match action with
      | .reset => .ok initialState
      | a =>
        .error ⟨"Invalid action '" ++ actionTypeStr a ++
          "' for revealed state", .INVALID_TRANSITION, some state, some a⟩

instance : DecidableEq (Except GameStateError RoundState) := fun a b =>
  match a, b with
  | .ok x, .ok y =>
    if h : x = y then .isTrue (by rw [h]) else .isFalse (by simp [h])
  | .error x, .error y =>
    if h : x = y then .isTrue (by rw [h]) else .isFalse (by simp [h])
  | .ok _, .error _ => .isFalse (by simp)
  | .error _, .ok _ => .isFalse (by simp)

/-- Apply a sequence of `(timeProvider-now, action)` pairs; any raised
error aborts the sequence. -/
def stepMany (state : RoundState) : List (Int × Action) →
    Except GameStateError RoundState
  | [] => .ok state
  | (now, a) :: rest =>
    match reduce now state a with
    | .ok s' => stepMany s' rest
    | .error e => .error e

/-- Code of the raised `GameStateError`, if any. -/
def errCode : Except GameStateError RoundState → Option GameCode
  | .error e => some e.code
  | .ok _ => none

/-- State attached to the raised `GameStateError`, if any. -/
def errState : Except GameStateError RoundState → Option RoundState
  | .error e => e.currentState
  | .ok _ => none

/-- Action attached to the raised `GameStateError`, if any. -/
def errAction : Except GameStateError RoundState → Option Action
  | .error e => e.action
  | .ok _ => none

/-! ## Theorems about the round state machine -/

/-- C10: `reduce` validates the state first: every `active` state
violating one of the range checks of `isValidRoundState` is rejected
with an `INVALID_STATE` error carrying the state and the action,
whatever the action is.  In particular `startedAtMs = 0` is rejected. -/
theorem c10_reduce_rejects_malformed_state (now st dl : Int)
    (gs : List String) (h sc : Int) (a : Action)
    (hbad : st ≤ 0 ∨ dl ≤ st ∨ gs.length > 3 ∨ h < 0 ∨ h > 5 ∨
      sc < 0 ∨ sc > 10) :
    reduce now (.active st dl gs h sc) a =
      .error ⟨"Invalid state provided to reducer", .INVALID_STATE,
        some (.active st dl gs h sc), some a⟩ := by
  have hv : isValidRoundState (.active st dl gs h sc) = false := by
    simp only [isValidRoundState, MAX_GUESSES, MAX_HINTS, MAX_SCORE,
      MIN_SCORE, decide_eq_false_iff_not]
    omega
  simp [reduce, hv]

/-- C10 witness: a state whose round began at clock value 0 is rejected
rather than processed. -/
theorem c10_reduce_rejects_malformed_state_witness :
    reduce 5 (.active 0 60000 [] 0 5) .hint =
      .error ⟨"Invalid state provided to reducer", .INVALID_STATE,
        some (.active 0 60000 [] 0 5), some .hint⟩ :=
  c10_reduce_rejects_malformed_state 5 0 60000 [] 0 5 .hint (by omega)

/-- C9 counterexample: the claim says a whitespace-only guess throws
`INVALID_ACTION` in *every* state, but in a malformed state (here one
with `startedAtMs = 0`) `reduce` throws `INVALID_STATE` instead,
because the state is validated before the action. -/
theorem c9_cex_ws_guess_invalid_state :
    errCode (reduce 5 (.active 0 60000 [] 0 5) (.guess " ")) =
        some .INVALID_STATE ∧
      errCode (reduce 5 (.active 0 60000 [] 0 5) (.guess " ")) ≠
        some .INVALID_ACTION := by
  constructor
  · decide
  · decide

/-- C9 (amended to structurally valid states): in every state accepted
by the state validator, a guess whose text trims to the empty string is
rejected with an `INVALID_ACTION` error carrying the state and the
action, so it is never recorded as an attempt. -/
theorem c9_ws_guess_rejected (now : Int) (s : RoundState) (text : String)
    (hs : isValidRoundState s = true) (ht : jsTrim text = "") :
    reduce now s (.guess text) =
      .error ⟨"Invalid action provided to reducer", .INVALID_ACTION,
        some s, some (.guess text)⟩ := by
  have ha : isValidAction (.guess text) = false := by
    simp [isValidAction, ht]
  simp [reduce, hs, ha]

/-- C9 witness. -/
theorem c9_ws_guess_rejected_witness :
    reduce 5 (.active 1 60001 [] 0 5) (.guess "  ") =
      .error ⟨"Invalid action provided to reducer", .INVALID_ACTION,
        some (.active 1 60001 [] 0 5), some (.guess "  ")⟩ :=
  c9_ws_guess_rejected 5 (.active 1 60001 [] 0 5) "  " (by decide)
    (by decide)

/-- The `(state, action)` pairs that have a row in the spec's transition
table (§4.5). -/
def inTable : RoundState → Action → Bool
  | .idle, .start => true
  | .idle, .reset => true
  | .active _ _ _ _ _, .tick _ => true
  | .active _ _ _ _ _, .guess _ => true
  | .active _ _ _ _ _, .hint => true
  | .active _ _ _ _ _, .reveal _ => true
  | .revealed _ _ _ _ _, .reset => true
  | _, _ => false

/-- C6: for every valid state and structurally valid action whose pair
has no row in the transition table, `reduce` fails with an
`INVALID_TRANSITION` error that carries exactly the rejected action and
the current state; no new state is produced. -/
theorem c6_invalid_transition (now : Int) (s : RoundState) (a : Action)
    (hs : isValidRoundState s = true) (ha : isValidAction a = true)
    (hnt : inTable s a = false) :
    errCode (reduce now s a) = some .INVALID_TRANSITION ∧
      errState (reduce now s a) = some s ∧
      errAction (reduce now s a) = some a := by
  cases s <;> cases a <;>
    simp_all [reduce, inTable, errCode, errState, errAction]

/-- C6 witness: `hint` while `Idle`. -/
theorem c6_invalid_transition_witness :
    errCode (reduce 1 .idle .hint) = some .INVALID_TRANSITION ∧
      errState (reduce 1 .idle .hint) = some .idle ∧
      errAction (reduce 1 .idle .hint) = some .hint :=
  c6_invalid_transition 1 .idle .hint (by decide) (by decide) (by decide)

/-- C4 counterexample: the claimed scenario starts the round at clock
time `t = 0`, i.e. an `active` state with `startedAtMs = 0`.  The state
validator requires `startedAtMs > 0`, so `tick(59999)` does not return
the state unchanged — it throws `INVALID_STATE`. -/
theorem c4_cex_tick_at_zero_start :
    reduce 1 (.active 0 60000 [] 0 5) (.tick 59999) ≠
        .ok (.active 0 60000 [] 0 5) ∧
      errCode (reduce 1 (.active 0 60000 [] 0 5) (.tick 59999)) =
        some .INVALID_STATE := by
  constructor
  · decide
  · decide

/-- C4 (amended to a positive start time): for a round started at any
clock value `t₀ > 0` with the 60-second duration and score 5,
`tick(t₀ + 59999)` leaves the state unchanged and `tick(t₀ + 60000)`
reveals with reason `timeout` and `finalScore = 4`; in general, on any
valid `active` state, `tick(nowMs)` with `startedAtMs ≤ nowMs` times
out to `finalScore = max 0 (score - 1)` when `nowMs ≥ deadlineMs` and
leaves the state unchanged when `nowMs < deadlineMs`. -/
theorem c4_tick_timeout :
    (∀ t0 : Int, t0 > 0 →
      reduce 0 (.active t0 (t0 + 60000) [] 0 5) (.tick (t0 + 59999)) =
          .ok (.active t0 (t0 + 60000) [] 0 5) ∧
        reduce 0 (.active t0 (t0 + 60000) [] 0 5) (.tick (t0 + 60000)) =
          .ok (.revealed (t0 + 60000) .timeout 4 [] 0)) ∧
    (∀ now st dl : Int, ∀ gs : List String, ∀ h sc nowMs : Int,
      isValidRoundState (.active st dl gs h sc) = true → st ≤ nowMs →
      (nowMs ≥ dl →
        reduce now (.active st dl gs h sc) (.tick nowMs) =
          .ok (.revealed nowMs .timeout (max 0 (sc - 1)) gs h)) ∧
      (nowMs < dl →
        reduce now (.active st dl gs h sc) (.tick nowMs) =
          .ok (.active st dl gs h sc))) := by
  have general : ∀ now st dl : Int, ∀ gs : List String,
      ∀ h sc nowMs : Int,
      isValidRoundState (.active st dl gs h sc) = true → st ≤ nowMs →
      (nowMs ≥ dl →
        reduce now (.active st dl gs h sc) (.tick nowMs) =
          .ok (.revealed nowMs .timeout (max 0 (sc - 1)) gs h)) ∧
      (nowMs < dl →
        reduce now (.active st dl gs h sc) (.tick nowMs) =
          .ok (.active st dl gs h sc)) := by
    intro now st dl gs h sc nowMs hv hle
    simp only [isValidRoundState, MAX_GUESSES, MAX_HINTS, MAX_SCORE,
      MIN_SCORE, decide_eq_true_eq] at hv
    have hclamp : clampScore (sc - 1) = max 0 (sc - 1) := by
      simp only [clampScore, MAX_SCORE, MIN_SCORE]
      omega
    have hvalid : isValidRoundState (.active st dl gs h sc) = true := by
      simp only [isValidRoundState, MAX_GUESSES, MAX_HINTS, MAX_SCORE,
        MIN_SCORE, decide_eq_true_eq]
      omega
    have hact : isValidAction (.tick nowMs) = true := by
      simp only [isValidAction, decide_eq_true_eq]
      omega
    constructor
    · intro hge
      have hrv : isValidRoundState
          (.revealed nowMs .timeout (clampScore (sc - 1)) gs h) = true := by
        simp only [isValidRoundState, MAX_SCORE, MIN_SCORE, clampScore,
          decide_eq_true_eq]
        omega
      simp only [reduce, hvalid, hact, hrv, Bool.not_true, not_false_iff,
        if_false, if_neg (by omega : ¬ nowMs < st),
        if_pos (by omega : nowMs ≥ dl)]
      rw [hclamp]
      simp
    · intro hlt
      simp only [reduce, hvalid, hact, Bool.not_true, not_false_iff,
        if_false, if_neg (by omega : ¬ nowMs < st),
        if_neg (by omega : ¬ nowMs ≥ dl)]
      simp
  refine ⟨?_, general⟩
  intro t0 ht0
  have hv : isValidRoundState (.active t0 (t0 + 60000) [] 0 5) = true := by
    simp only [isValidRoundState, MAX_GUESSES, MAX_HINTS, MAX_SCORE,
      MIN_SCORE, decide_eq_true_eq, List.length_nil]
    omega
  have h1 := (general 0 t0 (t0 + 60000) [] 0 5 (t0 + 59999) hv
    (by omega)).2 (by omega)
  have h2 := (general 0 t0 (t0 + 60000) [] 0 5 (t0 + 60000) hv
    (by omega)).1 (by omega)
  refine ⟨h1, ?_⟩
  rw [h2]
  norm_num

/-- C4 witness. -/
theorem c4_tick_timeout_witness :
    reduce 0 (.active 1 60001 [] 0 5) (.tick 60000) =
        .ok (.active 1 60001 [] 0 5) ∧
      reduce 0 (.active 1 60001 [] 0 5) (.tick 60001) =
        .ok (.revealed 60001 .timeout 4 [] 0) :=
  c4_tick_timeout.1 1 (by omega)

/-- The score bound of C5: `score` (resp. `finalScore`) lies in `[0, 5]`. -/
def scoreInv : RoundState → Prop
  | .idle => True
  | .active _ _ _ _ sc => 0 ≤ sc ∧ sc ≤ 5
  | .revealed _ _ fs _ _ => 0 ≤ fs ∧ fs ≤ 5

/-- A single successful `reduce` step preserves the score bound. -/
theorem scoreInv_step (now : Int) (s s' : RoundState) (a : Action)
    (hinv : scoreInv s) (h : reduce now s a = .ok s') : scoreInv s' := by
  cases s with
  | idle =>
    cases a <;> simp only [reduce, initialState] at h <;>
      split_ifs at h <;>
      first
        | exact Except.noConfusion h
        | (injection h with h; subst h;
            simp only [scoreInv, clampScore, MIN_SCORE, MAX_SCORE] <;>
            first | trivial | omega)
  | active st dl gs hu sc =>
    simp only [scoreInv] at hinv
    cases a <;> simp only [reduce, initialState] at h <;>
      split_ifs at h <;>
      first
        | exact Except.noConfusion h
        | (injection h with h; subst h;
            simp only [scoreInv, clampScore, MIN_SCORE, MAX_SCORE] <;>
            first | trivial | omega)
  | revealed e r fs gs hu =>
    cases a <;> simp only [reduce, initialState] at h <;>
      split_ifs at h <;>
      first
        | exact Except.noConfusion h
        | (injection h with h; subst h;
            simp only [scoreInv, clampScore, MIN_SCORE, MAX_SCORE] <;>
            first | trivial | omega)

/-- `stepMany` preserves the score bound. -/
theorem scoreInv_stepMany (ops : List (Int × Action)) (s s' : RoundState)
    (hinv : scoreInv s) (h : stepMany s ops = .ok s') : scoreInv s' := by
  induction ops generalizing s with
  | nil => simp only [stepMany] at h; cases h; exact hinv
  | cons p rest ih =>
    simp only [stepMany] at h
    cases hr : reduce p.1 s p.2 with
    | ok s1 =>
      rw [hr] at h
      exact ih s1 (scoreInv_step p.1 s s1 p.2 hinv hr) h
    | error e => rw [hr] at h; cases h

/-- C5: starting from a freshly started round (any successful
`start` from `Idle`, which sets the score to 5), after any successful
sequence of actions — including arbitrarily many `hint` requests beyond
the cap — the `score` of the resulting `active` state, or `finalScore`
of the resulting `revealed` state, lies in `[0, 5]`. -/
theorem c5_score_bounded (now0 : Int) (s0 s' : RoundState)
    (ops : List (Int × Action))
    (hstart : reduce now0 .idle .start = .ok s0)
    (hrun : stepMany s0 ops = .ok s') : scoreInv s' := by
  have hinv0 : scoreInv s0 := by
    simp only [reduce] at hstart
    split_ifs at hstart <;>
      first
        | exact Except.noConfusion hstart
        | (injection hstart with hstart; subst hstart;
            simp only [scoreInv];
            omega)
  exact scoreInv_stepMany ops s0 s' hinv0 hrun

/-- C5 witness: one `hint` after a start at time 1. -/
theorem c5_score_bounded_witness :
    scoreInv (.active 1 60001 [] 1 4) :=
  c5_score_bounded 1 (.active 1 60001 [] 0 5) (.active 1 60001 [] 1 4)
    [(2, .hint)] (by decide) (by decide)

/-! ## optimizedFuzzy.ts — `BoundedCache` -/

/-- `BoundedCache<K, V>`: a JavaScript `Map` (association list with
unique keys, in insertion order) plus the `accessOrder` array and the
fixed capacity. -/
structure BCache (K V : Type) where
  map : List (K × V)
  accessOrder : List K
  maxSize : Nat
  deriving DecidableEq, Repr

namespace BCache

variable {K V : Type} [DecidableEq K]

/-- `Map.prototype.get` (first — and only — entry with this key). -/
def findVal : List (K × V) → K → Option V
  | [], _ => none
  | (k', v) :: rest, k => if k' = k then some v else findVal rest k

/-- `Map.prototype.set` on an existing key: replace the value in place. -/
def replaceVal : List (K × V) → K → V → List (K × V)
  | [], _, _ => []
  | (k', v') :: rest, k, v =>
    if k' = k then (k', v) :: rest else (k', v') :: replaceVal rest k v

/-- `Map.prototype.delete`. -/
def eraseKey : List (K × V) → K → List (K × V)
  | [], _ => []
  | (k', v') :: rest, k =>
    if k' = k then rest else (k', v') :: eraseKey rest k

/-- `new BoundedCache(maxSize)`: `Math.max(1, Math.floor(maxSize))`. -/
def mkCache (maxSize : Nat) : BCache K V := ⟨[], [], max 1 maxSize⟩

/-- `moveToEnd(key)`: `indexOf` finds the first occurrence (`> -1` iff
the key is present), `splice` removes it, `push` appends the key. -/
def moveToEnd (c : BCache K V) (k : K) : BCache K V :=
  if k ∈ c.accessOrder then
    { c with accessOrder := c.accessOrder.erase k ++ [k] }
  else c

/-- `get(key)`: probe the map and promote on a hit.  (In the source a
stored `undefined` value would act as a miss; values are never
`undefined` in this program.) -/
def get (c : BCache K V) (k : K) : Option V × BCache K V :=
  match findVal c.map k with
  | some v => (some v, moveToEnd c k)
  | none => (none, c)

/-- `evictLRU()`: drop the head of `accessOrder` and delete it from the
map. -/
def evictLRU (c : BCache K V) : BCache K V :=
  match c.accessOrder with
  | [] => c
  | lru :: rest => ⟨eraseKey c.map lru, rest, c.maxSize⟩

/-- `set(key, value)`. -/
def set (c : BCache K V) (k : K) (v : V) : BCache K V :=
  if (findVal c.map k).isSome then
    moveToEnd { c with map := replaceVal c.map k v } k
  else
    let c1 := if c.map.length ≥ c.maxSize then evictLRU c else c
    ⟨c1.map ++ [(k, v)], c1.accessOrder ++ [k], c1.maxSize⟩

/-- `clear()` -/
def clear (c : BCache K V) : BCache K V := ⟨[], [], c.maxSize⟩

/-- `size()` -/
def size (c : BCache K V) : Nat := c.map.length

/-- The public operations of the cache, for operation sequences. -/
inductive CacheOp (K V : Type)
  | get (k : K)
  | set (k : K) (v : V)
  | clear

/-- Apply one public operation (the result of `get` is discarded). -/
def applyOp (c : BCache K V) : CacheOp K V → BCache K V
  | .get k => (c.get k).2
  | .set k v => c.set k v
  | .clear => c.clear

/-- Run a sequence of public operations. -/
def runOps (c : BCache K V) (ops : List (CacheOp K V)) : BCache K V :=
  ops.foldl applyOp c

/-- Well-formedness: keys are unique, the access order is duplicate-free
and holds exactly the keys of the map. -/
structure WF (c : BCache K V) : Prop where
  nodupKeys : (c.map.map Prod.fst).Nodup
  nodupOrder : c.accessOrder.Nodup
  mem_iff : ∀ k, k ∈ c.accessOrder ↔ k ∈ c.map.map Prod.fst

/-! ### Association-list lemmas -/

theorem findVal_isSome_iff {l : List (K × V)} {k : K} :
    (findVal l k).isSome ↔ k ∈ l.map Prod.fst := by
  induction l with
  | nil => simp [findVal]
  | cons p rest ih =>
    obtain ⟨k', v⟩ := p
    by_cases h : k' = k
    · subst h
      simp [findVal]
    · simp only [findVal, if_neg h, List.map_cons, List.mem_cons, ih]
      constructor
      · exact Or.inr
      · rintro (rfl | hm)
        · exact absurd rfl h
        · exact hm

theorem findVal_eq_none_iff {l : List (K × V)} {k : K} :
    findVal l k = none ↔ k ∉ l.map Prod.fst := by
  rw [← findVal_isSome_iff, Option.isSome_iff_ne_none]
  tauto

theorem keys_replaceVal {l : List (K × V)} {k : K} {v : V} :
    (replaceVal l k v).map Prod.fst = l.map Prod.fst := by
  induction l with
  | nil => simp [replaceVal]
  | cons p rest ih =>
    obtain ⟨k', v'⟩ := p
    by_cases h : k' = k <;> simp [replaceVal, h, ih]

theorem findVal_replaceVal_ne {l : List (K × V)} {k k' : K} {v : V}
    (h : k' ≠ k) : findVal (replaceVal l k v) k' = findVal l k' := by
  induction l with
  | nil => simp [replaceVal]
  | cons p rest ih =>
    obtain ⟨k0, v0⟩ := p
    by_cases h0 : k0 = k
    · subst h0
      simp [replaceVal, findVal, Ne.symm h]
    · simp only [replaceVal, if_neg h0, findVal]
      by_cases h1 : k0 = k' <;> simp [h1, ih]

theorem findVal_replaceVal_self {l : List (K × V)} {k : K} {v w : V}
    (h : findVal l k = some w) :
    findVal (replaceVal l k v) k = some v := by
  induction l with
  | nil => simp [findVal] at h
  | cons p rest ih =>
    obtain ⟨k0, v0⟩ := p
    by_cases h0 : k0 = k
    · simp [replaceVal, findVal, h0]
    · simp only [findVal, if_neg h0] at h
      simp [replaceVal, findVal, h0, ih h]

theorem keys_eraseKey {l : List (K × V)} {k : K} :
    (eraseKey l k).map Prod.fst = (l.map Prod.fst).erase k := by
  induction l with
  | nil => simp [eraseKey]
  | cons p rest ih =>
    obtain ⟨k', v'⟩ := p
    by_cases h : k' = k
    · subst h
      simp [eraseKey, List.erase_cons_head]
    · simp [eraseKey, h, List.erase_cons_tail, ih]

theorem findVal_eraseKey_ne {l : List (K × V)} {k k' : K} (h : k' ≠ k) :
    findVal (eraseKey l k) k' = findVal l k' := by
  induction l with
  | nil => simp [eraseKey]
  | cons p rest ih =>
    obtain ⟨k0, v0⟩ := p
    by_cases h0 : k0 = k
    · subst h0
      simp [eraseKey, findVal, Ne.symm h]
    · simp only [eraseKey, if_neg h0, findVal]
      by_cases h1 : k0 = k' <;> simp [h1, ih]

theorem findVal_append {l₁ l₂ : List (K × V)} {k : K} :
    findVal (l₁ ++ l₂) k =
      match findVal l₁ k with
      | some v => some v
      | none => findVal l₂ k := by
  induction l₁ with
  | nil => simp [findVal]
  | cons p rest ih =>
    obtain ⟨k', v'⟩ := p
    by_cases h : k' = k <;> simp [findVal, h, ih]

/-! ### Well-formedness and the capacity invariant -/

theorem map_moveToEnd (c : BCache K V) (k : K) :
    (c.moveToEnd k).map = c.map := by
  unfold moveToEnd
  split <;> rfl

theorem maxSize_moveToEnd (c : BCache K V) (k : K) :
    (c.moveToEnd k).maxSize = c.maxSize := by
  unfold moveToEnd
  split <;> rfl

theorem accessOrder_moveToEnd_mem (c : BCache K V) (k : K)
    (h : k ∈ c.accessOrder) :
    (c.moveToEnd k).accessOrder = c.accessOrder.erase k ++ [k] := by
  unfold moveToEnd
  rw [if_pos h]

theorem wf_moveToEnd {c : BCache K V} (hwf : WF c) (k : K) :
    WF (c.moveToEnd k) := by
  unfold moveToEnd
  split
  · next hmem =>
    refine ⟨hwf.nodupKeys, ?_, ?_⟩
    · rw [List.nodup_append]
      refine ⟨hwf.nodupOrder.erase k, List.nodup_singleton k, ?_⟩
      intro a ha hb
      rw [List.mem_singleton] at hb
      subst hb
      exact ((hwf.nodupOrder.mem_erase_iff).mp ha).1 rfl
    · intro x
      rw [List.mem_append, List.mem_singleton,
        hwf.nodupOrder.mem_erase_iff, ← hwf.mem_iff]
      constructor
      · rintro (⟨_, hx⟩ | rfl)
        · exact hx
        · exact hmem
      · intro hx
        by_cases hxk : x = k
        · exact Or.inr hxk
        · exact Or.inl ⟨hxk, hx⟩
  · exact hwf

theorem wf_get {c : BCache K V} (hwf : WF c) (k : K) :
    WF (c.get k).2 ∧ (c.get k).2.map = c.map ∧
      (c.get k).2.maxSize = c.maxSize := by
  unfold get
  cases h : findVal c.map k with
  | some v =>
    exact ⟨wf_moveToEnd hwf k, map_moveToEnd c k, maxSize_moveToEnd c k⟩
  | none => exact ⟨hwf, rfl, rfl⟩

theorem order_ne_nil_of_map_ne_nil {c : BCache K V} (hwf : WF c)
    (h : c.map ≠ []) : c.accessOrder ≠ [] := by
  intro hord
  cases hmap : c.map with
  | nil => exact h hmap
  | cons p rest =>
    have hmem : p.1 ∈ c.map.map Prod.fst := by
      rw [hmap]
      simp
    rw [← hwf.mem_iff, hord] at hmem
    exact absurd hmem (List.not_mem_nil _)

theorem wf_evictLRU {c : BCache K V} (hwf : WF c) :
    WF c.evictLRU ∧ c.evictLRU.maxSize = c.maxSize := by
  unfold evictLRU
  cases hord : c.accessOrder with
  | nil => exact ⟨hwf, rfl⟩
  | cons lru rest =>
    have hnd := hwf.nodupOrder
    rw [hord] at hnd
    refine ⟨⟨?_, ?_, ?_⟩, rfl⟩
    · simp only [keys_eraseKey]
      exact hwf.nodupKeys.erase lru
    · exact hnd.of_cons
    · intro x
      simp only [keys_eraseKey, hwf.nodupKeys.mem_erase_iff,
        ← hwf.mem_iff, hord]
      constructor
      · intro hx
        refine ⟨?_, List.mem_cons_of_mem _ hx⟩
        intro hxl
        subst hxl
        exact (List.nodup_cons.mp hnd).1 hx
      · rintro ⟨hne, hx⟩
        rcases List.mem_cons.mp hx with rfl | hx
        · exact absurd rfl hne
        · exact hx

theorem size_evictLRU {c : BCache K V} (hwf : WF c) (h : c.map ≠ []) :
    c.evictLRU.size = c.size - 1 := by
  unfold evictLRU
  cases hord : c.accessOrder with
  | nil => exact absurd hord (order_ne_nil_of_map_ne_nil hwf h)
  | cons lru rest =>
    have hmem : lru ∈ c.map.map Prod.fst := by
      rw [← hwf.mem_iff, hord]
      exact List.mem_cons_self _ _
    have : (eraseKey c.map lru).length = c.map.length - 1 := by
      have := List.length_erase_of_mem hmem
      calc (eraseKey c.map lru).length
          = ((eraseKey c.map lru).map Prod.fst).length := by
            rw [List.length_map]
        _ = ((c.map.map Prod.fst).erase lru).length := by
            rw [keys_eraseKey]
        _ = (c.map.map Prod.fst).length - 1 := this
        _ = c.map.length - 1 := by rw [List.length_map]
    simpa [size] using this

theorem wf_set {c : BCache K V} (hwf : WF c) (k : K) (v : V)
    (hsz : c.size ≤ c.maxSize) (hpos : 1 ≤ c.maxSize) :
    WF (c.set k v) ∧ (c.set k v).size ≤ c.maxSize ∧
      (c.set k v).maxSize = c.maxSize := by
  unfold set
  split
  · next hhit =>
    have hmap : (replaceVal c.map k v).map Prod.fst = c.map.map Prod.fst :=
      keys_replaceVal
    have hwf' : WF { c with map := replaceVal c.map k v } := by
      refine ⟨?_, hwf.nodupOrder, ?_⟩
      · rw [hmap]
        exact hwf.nodupKeys
      · intro x
        rw [hmap]
        exact hwf.mem_iff x
    refine ⟨wf_moveToEnd hwf' k, ?_, maxSize_moveToEnd _ k⟩
    have : (replaceVal c.map k v).length = c.map.length := by
      calc (replaceVal c.map k v).length
          = ((replaceVal c.map k v).map Prod.fst).length := by
            rw [List.length_map]
        _ = (c.map.map Prod.fst).length := by rw [hmap]
        _ = c.map.length := by rw [List.length_map]
    simp only [size, map_moveToEnd]
    simpa [size, this] using hsz
  · next hmiss =>
    have hk : k ∉ c.map.map Prod.fst := by
      rw [← findVal_isSome_iff]
      simpa using hmiss
    have hkord : k ∉ c.accessOrder := by
      rw [hwf.mem_iff]
      exact hk
    split
    · next hfull =>
      have hne : c.map ≠ [] := by
        intro hnil
        rw [hnil] at hfull
        simp only [List.length_nil, ge_iff_le] at hfull
        omega
      obtain ⟨hwfe, hms⟩ := wf_evictLRU hwf
      have hsze := size_evictLRU hwf hne
      have hsub : c.evictLRU.map.map Prod.fst ⊆ c.map.map Prod.fst := by
        unfold evictLRU
        cases hord : c.accessOrder with
        | nil => exact fun x hx => hx
        | cons lru rest =>
          simp only [keys_eraseKey]
          exact List.erase_subset _ _
      have hkord' : k ∉ c.evictLRU.accessOrder := by
        rw [hwfe.mem_iff]
        intro hx
        exact hk (hsub hx)
      have hke : k ∉ c.evictLRU.map.map Prod.fst := fun hx => hk (hsub hx)
      refine ⟨⟨?_, ?_, ?_⟩, ?_, hms⟩
      · simp only [List.map_append, List.map_cons, List.map_nil]
        rw [List.nodup_append]
        refine ⟨hwfe.nodupKeys, List.nodup_singleton k, ?_⟩
        intro a ha hb
        rw [List.mem_singleton] at hb
        subst hb
        exact hke ha
      · rw [List.nodup_append]
        refine ⟨hwfe.nodupOrder, List.nodup_singleton k, ?_⟩
        intro a ha hb
        rw [List.mem_singleton] at hb
        subst hb
        exact hkord' ha
      · intro x
        simp only [List.map_append, List.map_cons, List.map_nil,
          List.mem_append, List.mem_singleton, hwfe.mem_iff]
      · simp only [size, List.length_append, List.length_cons,
          List.length_nil]
        simp only [size] at hsz hsze
        omega
    · next hnotfull =>
      refine ⟨⟨?_, ?_, ?_⟩, ?_, rfl⟩
      · simp only [List.map_append, List.map_cons, List.map_nil]
        rw [List.nodup_append]
        refine ⟨hwf.nodupKeys, List.nodup_singleton k, ?_⟩
        intro a ha hb
        rw [List.mem_singleton] at hb
        subst hb
        exact hk ha
      · rw [List.nodup_append]
        refine ⟨hwf.nodupOrder, List.nodup_singleton k, ?_⟩
        intro a ha hb
        rw [List.mem_singleton] at hb
        subst hb
        exact hkord ha
      · intro x
        simp only [List.map_append, List.map_cons, List.map_nil,
          List.mem_append, List.mem_singleton, hwf.mem_iff]
      · simp only [size, List.length_append, List.length_cons,
          List.length_nil]
        simp only [size] at hsz
        rw [ge_iff_le, not_le] at hnotfull
        omega

theorem wf_applyOp {c : BCache K V} (hwf : WF c)
    (hsz : c.size ≤ c.maxSize) (hpos : 1 ≤ c.maxSize)
    (op : CacheOp K V) :
    WF (c.applyOp op) ∧ (c.applyOp op).size ≤ c.maxSize ∧
      (c.applyOp op).maxSize = c.maxSize := by
  cases op with
  | get k =>
    obtain ⟨h1, h2, h3⟩ := wf_get hwf k
    refine ⟨h1, ?_, h3⟩
    simp only [applyOp, size, h2]
    exact hsz
  | set k v => exact wf_set hwf k v hsz hpos
  | clear =>
    refine ⟨⟨List.nodup_nil, List.nodup_nil, ?_⟩, ?_, rfl⟩
    · intro x
      simp [applyOp, clear]
    · simp [applyOp, clear, size]

theorem wf_runOps {c : BCache K V} (ops : List (CacheOp K V)) (hwf : WF c)
    (hsz : c.size ≤ c.maxSize) (hpos : 1 ≤ c.maxSize) :
    WF (c.runOps ops) ∧ (c.runOps ops).size ≤ c.maxSize ∧
      (c.runOps ops).maxSize = c.maxSize := by
  induction ops generalizing c with
  | nil => exact ⟨hwf, hsz, rfl⟩
  | cons op rest ih =>
    obtain ⟨h1, h2, h3⟩ := wf_applyOp hwf hsz hpos op
    have h2' : (c.applyOp op).size ≤ (c.applyOp op).maxSize := by
      rw [h3]
      exact h2
    have hpos' : 1 ≤ (c.applyOp op).maxSize := by
      rw [h3]
      exact hpos
    obtain ⟨g1, g2, g3⟩ := ih h1 h2' hpos'
    have hrun : c.runOps (op :: rest) = (c.applyOp op).runOps rest := by
      simp [runOps]
    rw [hrun]
    rw [h3] at g2 g3
    exact ⟨g1, g2, g3⟩

end BCache

/-- C8: for a `BoundedCache` of capacity `N ≥ 1` and any sequence of
`get`/`set`/`clear` operations: (a) `size()` never exceeds `N`;
(b) when a new key is inserted while the cache is full, the entry
removed is exactly the least-recently-used one — the head of the access
order — and all other entries survive; (c) a `get` hit and a `set` of an
existing key both promote that key to most-recently-used (the tail of
the access order). -/
theorem c8_bounded_cache_lru {K V : Type} [DecidableEq K] (N : Nat)
    (hN : 1 ≤ N) (ops : List (BCache.CacheOp K V)) :
    ((BCache.mkCache N : BCache K V).runOps ops).size ≤ N ∧
    (∀ k v,
      BCache.findVal ((BCache.mkCache N : BCache K V).runOps ops).map k =
          none →
      ((BCache.mkCache N : BCache K V).runOps ops).size = N →
      ∃ lru rest,
        ((BCache.mkCache N : BCache K V).runOps ops).accessOrder =
          lru :: rest ∧
        lru ≠ k ∧
        BCache.findVal
          (((BCache.mkCache N : BCache K V).runOps ops).set k v).map lru =
          none ∧
        BCache.findVal
          (((BCache.mkCache N : BCache K V).runOps ops).set k v).map k =
          some v ∧
        ∀ k', k' ≠ lru → k' ≠ k →
          BCache.findVal
            (((BCache.mkCache N : BCache K V).runOps ops).set k v).map k' =
          BCache.findVal ((BCache.mkCache N : BCache K V).runOps ops).map
            k') ∧
    (∀ k,
      (BCache.findVal ((BCache.mkCache N : BCache K V).runOps ops).map
          k).isSome →
      (((BCache.mkCache N : BCache K V).runOps ops).get k).2.accessOrder =
        ((BCache.mkCache N : BCache K V).runOps ops).accessOrder.erase k ++
          [k] ∧
      ∀ v,
        (((BCache.mkCache N : BCache K V).runOps ops).set k
            v).accessOrder =
          ((BCache.mkCache N : BCache K V).runOps
              ops).accessOrder.erase k ++ [k]) := by
  have hwf0 : BCache.WF (BCache.mkCache N : BCache K V) := by
    refine ⟨List.nodup_nil, List.nodup_nil, ?_⟩
    intro x
    simp [BCache.mkCache]
  have hms0 : (BCache.mkCache N : BCache K V).maxSize = N := by
    simp only [BCache.mkCache]
    omega
  obtain ⟨hwf, hsz, hms⟩ := BCache.wf_runOps ops hwf0
    (by simp [BCache.mkCache, BCache.size]) (by rw [hms0]; exact hN)
  rw [hms0] at hsz hms
  set c : BCache K V := (BCache.mkCache N : BCache K V).runOps ops with hc
  refine ⟨hsz, ?_, ?_⟩
  · intro k v hmiss hfull
    have hk : k ∉ c.map.map Prod.fst := BCache.findVal_eq_none_iff.mp hmiss
    have hmapne : c.map ≠ [] := by
      intro hnil
      rw [BCache.size, hnil] at hfull
      simp at hfull
      omega
    obtain ⟨lru, rest, hord⟩ :
        ∃ lru rest, c.accessOrder = lru :: rest := by
      cases h : c.accessOrder with
      | nil => exact absurd h (BCache.order_ne_nil_of_map_ne_nil hwf hmapne)
      | cons a b => exact ⟨a, b, rfl⟩
    have hlruk : lru ∈ c.map.map Prod.fst := by
      rw [← hwf.mem_iff, hord]
      exact List.mem_cons_self _ _
    have hlne : lru ≠ k := fun h => hk (h ▸ hlruk)
    have hsome : (BCache.findVal c.map k).isSome = false := by
      rw [hmiss]
      rfl
    have hge : c.map.length ≥ c.maxSize := by
      rw [hms]
      rw [BCache.size] at hfull
      omega
    have hev : c.evictLRU = ⟨BCache.eraseKey c.map lru, rest, c.maxSize⟩ := by
      unfold BCache.evictLRU
      rw [hord]
    have hset : (c.set k v).map =
        BCache.eraseKey c.map lru ++ [(k, v)] := by
      unfold BCache.set
      rw [hsome]
      simp only [Bool.false_eq_true, if_false, if_pos hge, hev]
    refine ⟨lru, rest, hord, hlne, ?_, ?_, ?_⟩
    · rw [hset, BCache.findVal_append]
      have h1 : BCache.findVal (BCache.eraseKey c.map lru) lru = none := by
        rw [BCache.findVal_eq_none_iff, BCache.keys_eraseKey]
        exact hwf.nodupKeys.not_mem_erase
      rw [h1]
      simp [BCache.findVal, Ne.symm hlne]
    · rw [hset, BCache.findVal_append]
      have h1 : BCache.findVal (BCache.eraseKey c.map lru) k = none := by
        rw [BCache.findVal_eq_none_iff, BCache.keys_eraseKey]
        intro hmem
        exact hk (List.mem_of_mem_erase hmem)
      rw [h1]
      simp [BCache.findVal]
    · intro k' hk'lru hk'k
      rw [hset, BCache.findVal_append,
        BCache.findVal_eraseKey_ne hk'lru]
      cases hfv : BCache.findVal c.map k' with
      | some w => rfl
      | none => simp [BCache.findVal, Ne.symm hk'k]
  · intro k hsome
    have hkmem : k ∈ c.map.map Prod.fst := BCache.findVal_isSome_iff.mp hsome
    have hkord : k ∈ c.accessOrder := (hwf.mem_iff k).mpr hkmem
    constructor
    · unfold BCache.get
      cases hfv : BCache.findVal c.map k with
      | none =>
        rw [hfv] at hsome
        exact absurd hsome (by simp)
      | some v =>
        exact BCache.accessOrder_moveToEnd_mem c k hkord
    · intro v
      unfold BCache.set
      rw [if_pos hsome]
      exact BCache.accessOrder_moveToEnd_mem
        { c with map := BCache.replaceVal c.map k v } k hkord

/-- C8 witness. -/
theorem c8_bounded_cache_lru_witness :
    ((BCache.mkCache 2 : BCache Nat Nat).runOps
        [.set 10 0, .set 20 0, .set 30 0]).size ≤ 2 :=
  (c8_bounded_cache_lru 2 (by decide) [.set 10 0, .set 20 0, .set 30 0]).1

/-! ## optimizedFuzzy.ts — normalization and matching -/

/-- `MAX_CACHE_SIZE` -/
def MAX_CACHE_SIZE : Nat := 1000
/-- `MAX_INPUT_LENGTH` -/
def MAX_INPUT_LENGTH : Nat := 200
/-- `MAX_PLAYER_DATA_SIZE` -/
def MAX_PLAYER_DATA_SIZE : Nat := 10000
/-- `MAX_NORMALIZATION_LENGTH` -/
def MAX_NORMALIZATION_LENGTH : Nat := 500

/-- Error codes of `FuzzyMatchError`. -/
inductive FuzzyCode
  | INVALID_INPUT | MEMORY_LIMIT | INITIALIZATION_ERROR
  deriving DecidableEq, Repr

/-- `FuzzyMatchError(message, code)` (the optional `cause` is omitted;
no claim inspects it). -/
structure FuzzyMatchError where
  message : String
  code : FuzzyCode
  deriving DecidableEq, Repr

/-- A JavaScript value passed where a string is expected: either an
actual string or anything else (`null`, `undefined`, numbers, objects —
the matcher treats every non-string alike). -/
inductive JsVal
  | str (s : String)
  | notStr
  deriving DecidableEq, Repr

/-- The `Player` fields consulted by the matcher.  The TypeScript type
declares `firstName`, `lastName`, `displayName` as required strings, so
they are total here ("missing after trimming" is the empty string); the
optional `aliases` defaults to `[]`; `position` and the season fields
are never read by the matcher and are omitted. -/
structure PlayerV where
  id : String
  firstName : String
  lastName : String
  displayName : String
  aliases : List String
  deriving DecidableEq, Repr

/-- A target value at runtime: a `Player`-shaped object or a non-object
(`null`, a primitive, …). -/
inductive TargetV
  | obj (p : PlayerV)
  | notObj
  deriving DecidableEq, Repr

/-- `stripDiacritics`: `normalize('NFD')` followed by removal of the
combining marks `̀`–`ͯ`.  NFD itself is modelled as the
identity — on strings without precomposed accented letters (all strings
appearing in the claims) it is the identity, and every combining mark
in the stated range is removed either way. -/
def stripDiacritics (s : String) : String :=
  String.mk (s.data.filter fun c => ¬ (0x300 ≤ c.toNat ∧ c.toNat ≤ 0x36f))

/-- The character class `[a-z0-9]` with the `i` flag, i.e. ASCII
alphanumerics. -/
def isAsciiAlnum (c : Char) : Bool :=
  ('a' ≤ c ∧ c ≤ 'z') ∨ ('A' ≤ c ∧ c ≤ 'Z') ∨ ('0' ≤ c ∧ c ≤ '9')

/-- `normalizeName`: strip diacritics, replace every character outside
`[a-zA-Z0-9\s]` by a space, collapse whitespace runs, trim, lowercase,
and cap the length at 500. -/
def normalizeName (s : String) : String :=
  if s = "" then ""
  else
    let step1 := stripDiacritics s
    let step2 := String.mk (step1.data.map fun c =>
      if isAsciiAlnum c ∨ isJsWs c then c else ' ')
    let step3 := String.mk (collapseWsChars step2.data)
    let step4 := jsToLower (jsTrim step3)
    if step4.length > MAX_NORMALIZATION_LENGTH then
      jsSlice MAX_NORMALIZATION_LENGTH step4
    else step4

/-- `str.split(' ')` (single-space separator, keeps empty pieces,
`""` gives `[""]`). -/
def splitSpaceAux (cur : List Char) : List Char → List (List Char)
  | [] => [cur.reverse]
  | c :: rest =>
    if c = ' ' then cur.reverse :: splitSpaceAux [] rest
    else splitSpaceAux (c :: cur) rest

def jsSplitSpace (s : String) : List String :=
  (splitSpaceAux [] s.data).map String.mk

/-- `tokens`: split the normalized form on spaces, drop empties, keep at
most 20 tokens. -/
def tokens (s : String) : List String :=
  let normalized := normalizeName s
  if normalized = "" then []
  else ((jsSplitSpace normalized).filter (· ≠ "")).take 20

/-- `computeTokenSimilarity`: `|A ∩ B| / max(|A|, |B|, 1)` on the
deduplicated token sets; `1` when both lists are empty. -/
def computeTokenSimilarity (tokensA tokensB : List String) : ℚ :=
  if tokensA = [] ∧ tokensB = [] then 1
  else
    let setA := tokensA.dedup
    let setB := tokensB.dedup
    let intersection := (setA.filter (· ∈ setB)).length
    let denom := max (max setA.length setB.length) 1
    mkRat intersection denom

/-- The similarity score is the exact rational `|A ∩ B| / max(|A|, |B|, 1)`
(the JavaScript floating-point division is exact up to a rounding error
far smaller than the distance from any attainable score to the 0.75
threshold, so the float comparison and the rational comparison agree),
and the threshold `0.75` is `3/4`. -/
theorem computeTokenSimilarity_eq_div (tokensA tokensB : List String) :
    computeTokenSimilarity tokensA tokensB =
      if tokensA = [] ∧ tokensB = [] then 1
      else ((tokensA.dedup.filter (· ∈ tokensB.dedup)).length : ℚ) /
        ((max (max tokensA.dedup.length tokensB.dedup.length) 1 : Nat) :
          ℚ) := by
  unfold computeTokenSimilarity
  split
  · rfl
  · rw [Rat.mkRat_eq_div]
    norm_num

theorem mkRat_three_four : mkRat 3 4 = (3 : ℚ) / 4 := by
  rw [Rat.mkRat_eq_div]
  norm_num

/-- JavaScript `s[0]`, as the string it is compared against
(`undefined` for the empty string never compares equal; callers guard
with a truthiness check first, so `""` here is unreachable in the
guarded positions). -/
def strAt0 (s : String) : String :=
  match s.data with
  | [] => ""
  | c :: _ => String.mk [c]

/-- The per-player record precomputed by `precomputePlayerData`. -/
structure PlayerData where
  normalizedDisplayName : String
  normalizedLastFirst : String
  normalizedAliases : List String
  tokens : List String
  firstInitial : String
  normalizedLastName : String
  deriving DecidableEq, Repr

/-- The data computed for one (validated) player. -/
def mkPlayerData (p : PlayerV) : PlayerData :=
  { normalizedDisplayName := normalizeName p.displayName
    normalizedLastFirst := normalizeName (p.lastName ++ ", " ++ p.firstName)
    normalizedAliases :=
      (((p.aliases.filter (· ≠ "")).take 10).map normalizeName).filter
        (· ≠ "")
    tokens := tokens p.displayName
    firstInitial := jsToLower (strAt0 p.firstName)
    normalizedLastName := normalizeName p.lastName }

/-- `validatePlayer`: the target must be an object with a non-empty
string `displayName`. -/
def validatePlayerE : TargetV → Except FuzzyMatchError PlayerV
  | .notObj => .error ⟨"Player must be an object", .INVALID_INPUT⟩
  | .obj p =>
    if p.displayName = "" then
      .error ⟨"Player must have a valid displayName", .INVALID_INPUT⟩
    else .ok p

/-- `validateInput`: non-strings are rejected, the empty string is let
through, strings longer than 200 characters are rejected. -/
def validateInput : JsVal → Except FuzzyMatchError String
  | .notStr => .error ⟨"Input must be a string", .INVALID_INPUT⟩
  | .str s =>
    if s.length = 0 then .ok ""
    else if s.length > MAX_INPUT_LENGTH then
      .error ⟨"Input too long: " ++ toString s.length ++ " > " ++
        toString MAX_INPUT_LENGTH, .INVALID_INPUT⟩
    else .ok s

/-- The precomputed index of `OptimizedFuzzyMatcher` (a JavaScript
`Map` keyed by player id). -/
structure Matcher where
  playerData : List (String × PlayerData)
  deriving DecidableEq, Repr

/-- JS `Map.set`: overwrite in place or append. -/
def mapSetPD (l : List (String × PlayerData)) (k : String)
    (d : PlayerData) : List (String × PlayerData) :=
  if (BCache.findVal l k).isSome then BCache.replaceVal l k d
  else l ++ [(k, d)]

/-- `precomputePlayerData`: validate each player, compute its record,
store it when the normalized display name is non-empty; a per-player
failure is caught and that player skipped. -/
def precomputePlayerData (ps : List TargetV) :
    List (String × PlayerData) :=
  ps.foldl
    (fun acc t =>
      match validatePlayerE t with
      | .error _ => acc
      | .ok p =>
        let d := mkPlayerData p
        if d.normalizedDisplayName ≠ "" then mapSetPD acc p.id d
        else acc)
    []

/-- The `OptimizedFuzzyMatcher` constructor: rejects non-arrays (not
representable here) and player lists beyond `MAX_PLAYER_DATA_SIZE`,
then precomputes. -/
def mkMatcherE (ps : List TargetV) : Except FuzzyMatchError Matcher :=
  if ps.length > MAX_PLAYER_DATA_SIZE then
    .error ⟨"Too many players: " ++ toString ps.length ++ " > " ++
      toString MAX_PLAYER_DATA_SIZE, .MEMORY_LIMIT⟩
  else .ok ⟨precomputePlayerData ps⟩

/-- `fallbackMatch` (used when the player id is not in the index).  The
fields of `PlayerV` are total strings, so the `TypeError` the source
could hit on an `undefined` `firstName` (caught by the caller and
turned into `false`) has no counterpart here. -/
def fallbackMatch (input : String) (p : PlayerV) : Bool :=
  let iNorm := normalizeName input
  (iNorm == normalizeName p.displayName) ||
  (iNorm == normalizeName (p.lastName ++ ", " ++ p.firstName)) ||
  (p.aliases.any fun a => normalizeName a == iNorm) ||
  (decide (computeTokenSimilarity (tokens input) (tokens p.displayName) ≥
    mkRat 3 4)) ||
  (let fi := jsToLower (strAt0 p.firstName)
   match jsSplitSpace iNorm with
   | f :: l :: _ =>
     (l ≠ "" : Bool) && (f ≠ "" : Bool) && (strAt0 f == fi) &&
       (normalizeName p.lastName == l)
   | _ => false)

/-- The body of `computeMatch` once the precomputed record has been
found: exact display-name match, exact "last, first" match, alias
match, token-set similarity at the 0.75 threshold, and the
last-name-plus-first-initial pattern, in the source's order. -/
def matchWithData (d : PlayerData) (input : String) : Bool :=
  let iNorm := normalizeName input
  (iNorm == d.normalizedDisplayName) ||
  (iNorm == d.normalizedLastFirst) ||
  (d.normalizedAliases.any fun a => iNorm == a) ||
  (decide (computeTokenSimilarity (tokens input) d.tokens ≥ mkRat 3 4)) ||
  (match tokens input with
   | f :: l :: _ =>
     (l ≠ "" : Bool) && (f ≠ "" : Bool) && (strAt0 f == d.firstInitial) &&
       (d.normalizedLastName == l)
   | _ => false)

/-- `computeMatch`: the layered strategy over the precomputed record,
falling back to `fallbackMatch` when the id is not indexed. -/
def computeMatch (m : Matcher) (input : String) (p : PlayerV) : Bool :=
  match BCache.findVal m.playerData p.id with
  | none => fallbackMatch input p
  | some d => matchWithData d input

/-- `OptimizedFuzzyMatcher.isNameMatch` with the (global) match cache
made explicit.  Every throwing path is caught and returns `false` with
the cache untouched; in the model nothing after validation can throw,
so the catch corresponds exactly to the two validation failures. -/
def isNameMatchM (m : Matcher) (c : BCache String Bool) (input : JsVal)
    (target : TargetV) : Bool × BCache String Bool :=
  match validateInput input with
  | .error _ => (false, c)
  | .ok validInput =>
    match validatePlayerE target with
    | .error _ => (false, c)
    | .ok p =>
      if validInput.length = 0 then (false, c)
      else
        let cacheKey := jsSlice 50 validInput ++ ":" ++ p.id
        match c.get cacheKey with
        | (some cached, c') => (cached, c')
        | (none, c') =>
          let result := computeMatch m validInput p
          (result, c'.set cacheKey result)

/-- The module-level `isNameMatch`: delegates to the singleton matcher,
or uses exact display-name comparison when no matcher is initialized. -/
def moduleIsNameMatch (fm : Option Matcher) (c : BCache String Bool)
    (input : JsVal) (target : TargetV) : Bool × BCache String Bool :=
  match fm with
  | some m => isNameMatchM m c input target
  | none =>
    match validateInput input with
    | .error _ => (false, c)
    | .ok s =>
      match validatePlayerE target with
      | .error _ => (false, c)
      | .ok p =>
        if s.length = 0 then (false, c)
        else
          ((normalizeName s == normalizeName p.displayName) &&
            (normalizeName s ≠ "" : Bool), c)

/-! ### Helper lemmas about the matcher -/

theorem findVal_cons_self {K V : Type} [DecidableEq K] (k : K) (v : V)
    (rest : List (K × V)) : BCache.findVal ((k, v) :: rest) k = some v := by
  simp [BCache.findVal]

theorem computeMatch_indexed {m : Matcher} {input : String} {p : PlayerV}
    {d : PlayerData} (h : BCache.findVal m.playerData p.id = some d) :
    computeMatch m input p = matchWithData d input := by
  unfold computeMatch
  rw [h]

theorem tokens_congr {i1 i2 : String}
    (h : normalizeName i1 = normalizeName i2) : tokens i1 = tokens i2 := by
  unfold tokens
  rw [h]

/-- `matchWithData` depends on the input only through its normalized
form. -/
theorem matchWithData_congr (d : PlayerData) {i1 i2 : String}
    (h : normalizeName i1 = normalizeName i2) :
    matchWithData d i1 = matchWithData d i2 := by
  unfold matchWithData
  rw [tokens_congr h, h]

/-- On a fresh cache, the matcher's `isNameMatch` is exactly
`computeMatch` for a valid non-empty input and a valid target. -/
theorem isNameMatchM_mkCache (m : Matcher) (n : Nat) (s : String)
    (p : PlayerV) (h1 : s ≠ "") (h2 : s.length ≤ MAX_INPUT_LENGTH)
    (h3 : p.displayName ≠ "") :
    (isNameMatchM m (BCache.mkCache n) (.str s) (.obj p)).1 =
      computeMatch m s p := by
  have hlen : ¬ s.length = 0 := by
    intro h0
    apply h1
    cases s with
    | mk data =>
      cases data with
      | nil => rfl
      | cons c cs => simp [String.length] at h0
  have hget : (BCache.mkCache n : BCache String Bool).get
      (jsSlice 50 s ++ ":" ++ p.id) =
      (none, BCache.mkCache n) := rfl
  simp only [isNameMatchM, validateInput, validatePlayerE, if_neg hlen,
    if_neg (show ¬ s.length > MAX_INPUT_LENGTH by omega), if_neg h3, hget]

/-! ### C3 — exact/whitespace matching and the "Tm Brady" input -/

/-- C3 counterexample: the claim says `isNameMatch("Tm Brady", target)`
is `false` for a target named Tom Brady, but the matcher returns
`true`: the input tokens are `["tm", "brady"]`, `"tm"` starts with the
first initial `t` and `"brady"` equals the normalized last name, so the
last-name-plus-first-initial rule fires. -/
theorem c3_cex_tm_brady_matches :
    (isNameMatchM ⟨precomputePlayerData
        [.obj ⟨"p2", "Tom", "Brady", "Tom Brady", []⟩]⟩
      (BCache.mkCache MAX_CACHE_SIZE) (.str "Tm Brady")
      (.obj ⟨"p2", "Tom", "Brady", "Tom Brady", []⟩)).1 = true := by
  decide

/-- C3 (amended): for every target with displayName "Tom Brady",
firstName "Tom" and lastName "Brady" (any id, any alias list), on a
fresh cache the matcher accepts "Tom Brady" and "tom   brady", and it
also accepts "Tm Brady" — via the last-name-plus-first-initial rule,
not via any character-level fuzziness. -/
theorem c3_tom_brady_matching (id : String) (aliases : List String) :
    (isNameMatchM ⟨precomputePlayerData
        [.obj ⟨id, "Tom", "Brady", "Tom Brady", aliases⟩]⟩
      (BCache.mkCache MAX_CACHE_SIZE) (.str "Tom Brady")
      (.obj ⟨id, "Tom", "Brady", "Tom Brady", aliases⟩)).1 = true ∧
    (isNameMatchM ⟨precomputePlayerData
        [.obj ⟨id, "Tom", "Brady", "Tom Brady", aliases⟩]⟩
      (BCache.mkCache MAX_CACHE_SIZE) (.str "tom   brady")
      (.obj ⟨id, "Tom", "Brady", "Tom Brady", aliases⟩)).1 = true ∧
    (isNameMatchM ⟨precomputePlayerData
        [.obj ⟨id, "Tom", "Brady", "Tom Brady", aliases⟩]⟩
      (BCache.mkCache MAX_CACHE_SIZE) (.str "Tm Brady")
      (.obj ⟨id, "Tom", "Brady", "Tom Brady", aliases⟩)).1 = true := by
  have hpd : precomputePlayerData
      [.obj ⟨id, "Tom", "Brady", "Tom Brady", aliases⟩] =
      [(id, mkPlayerData ⟨id, "Tom", "Brady", "Tom Brady", aliases⟩)] :=
    rfl
  have hfv : BCache.findVal
      (Matcher.mk (precomputePlayerData
        [.obj ⟨id, "Tom", "Brady", "Tom Brady", aliases⟩])).playerData
      (PlayerV.mk id "Tom" "Brady" "Tom Brady" aliases).id =
      some (mkPlayerData ⟨id, "Tom", "Brady", "Tom Brady", aliases⟩) := by
    show BCache.findVal (precomputePlayerData
      [.obj ⟨id, "Tom", "Brady", "Tom Brady", aliases⟩]) id = _
    rw [hpd]
    exact findVal_cons_self _ _ _
  refine ⟨?_, ?_, ?_⟩ <;>
    rw [isNameMatchM_mkCache _ _ _ _ (by decide) (by decide)
      (show ("Tom Brady" : String) ≠ "" by decide),
      computeMatch_indexed hfv]
  · have e1 : (normalizeName "Tom Brady" ==
        (mkPlayerData
          ⟨id, "Tom", "Brady", "Tom Brady", aliases⟩).normalizedDisplayName) =
        true := rfl
    simp only [matchWithData, e1, Bool.true_or]
  · have e1 : (normalizeName "tom   brady" ==
        (mkPlayerData
          ⟨id, "Tom", "Brady", "Tom Brady", aliases⟩).normalizedDisplayName) =
        true := rfl
    simp only [matchWithData, e1, Bool.true_or]
  · have e5 : (match tokens "Tm Brady" with
       | f :: l :: _ =>
         (l ≠ "" : Bool) && (f ≠ "" : Bool) &&
           (strAt0 f ==
             (mkPlayerData
               ⟨id, "Tom", "Brady", "Tom Brady", aliases⟩).firstInitial) &&
           ((mkPlayerData
               ⟨id, "Tom", "Brady", "Tom Brady",
                 aliases⟩).normalizedLastName == l)
       | _ => false) = true := rfl
    simp only [matchWithData, e5, Bool.or_true]

/-! ### C7 — fail-closed behavior of `isNameMatch` -/

theorem tokens_eq_nil_of_normalize_eq_empty {s : String}
    (h : normalizeName s = "") : tokens s = [] := by
  unfold tokens
  rw [h]
  simp

/-- C7 counterexample: the claim says any malformed target (missing
required name fields) and any input normalizing to empty yield `false`.
But `validatePlayer` only checks `displayName`: a target with empty
`firstName`/`lastName` still matches its display name, and the input
`"."` — which normalizes to the empty string — matches that target's
empty normalized `"lastName, firstName"` form. -/
theorem c7_cex_malformed_target_matches :
    (isNameMatchM ⟨precomputePlayerData
        [.obj ⟨"p1", "", "", "Tom Brady", []⟩]⟩
      (BCache.mkCache MAX_CACHE_SIZE) (.str "Tom Brady")
      (.obj ⟨"p1", "", "", "Tom Brady", []⟩)).1 = true ∧
    (isNameMatchM ⟨precomputePlayerData
        [.obj ⟨"p1", "", "", "Tom Brady", []⟩]⟩
      (BCache.mkCache MAX_CACHE_SIZE) (.str ".")
      (.obj ⟨"p1", "", "", "Tom Brady", []⟩)).1 = true := by
  constructor
  · decide
  · decide

/-- C7 (amended): `isNameMatch` is a total boolean function (it never
throws), and it returns `false`, with the cache untouched, for every
non-string input, every input longer than 200 characters, the empty
string, every non-object target and every target whose `displayName` is
missing/empty.  An input that normalizes to the empty string is
rejected only against an indexed target whose precomputed record has a
non-empty display name, a non-empty "last, first" form, no empty alias
and at least one token — which holds for every indexed player with
non-empty name fields, but can fail for a target with empty
`firstName`/`lastName` (see the counterexample). -/
theorem c7_fail_closed :
    (∀ (m : Matcher) (c : BCache String Bool) (t : TargetV),
      isNameMatchM m c .notStr t = (false, c)) ∧
    (∀ (m : Matcher) (c : BCache String Bool) (s : String) (t : TargetV),
      s.length > MAX_INPUT_LENGTH → isNameMatchM m c (.str s) t =
        (false, c)) ∧
    (∀ (m : Matcher) (c : BCache String Bool) (t : TargetV),
      isNameMatchM m c (.str "") t = (false, c)) ∧
    (∀ (m : Matcher) (c : BCache String Bool) (inp : JsVal),
      isNameMatchM m c inp .notObj = (false, c)) ∧
    (∀ (m : Matcher) (c : BCache String Bool) (inp : JsVal)
      (i f l : String) (al : List String),
      isNameMatchM m c inp (.obj ⟨i, f, l, "", al⟩) = (false, c)) ∧
    (∀ (m : Matcher) (input : String) (p : PlayerV) (d : PlayerData),
      BCache.findVal m.playerData p.id = some d →
      normalizeName input = "" →
      d.normalizedDisplayName ≠ "" → d.normalizedLastFirst ≠ "" →
      "" ∉ d.normalizedAliases → d.tokens ≠ [] →
      computeMatch m input p = false) := by
  refine ⟨?_, ?_, ?_, ?_, ?_, ?_⟩
  · intro m c t
    rfl
  · intro m c s t h
    have h0 : ¬ s.length = 0 := by omega
    simp only [isNameMatchM, validateInput, if_neg h0, if_pos h]
  · intro m c t
    simp only [isNameMatchM, validateInput, String.length, String.data,
      List.length_nil, if_pos rfl]
    cases validatePlayerE t <;> simp
  · intro m c inp
    cases inp with
    | notStr => rfl
    | str s =>
      simp only [isNameMatchM, validateInput, validatePlayerE]
      split_ifs <;> rfl
  · intro m c inp i f l al
    cases inp with
    | notStr => rfl
    | str s =>
      simp only [isNameMatchM, validateInput, validatePlayerE]
      split_ifs <;> rfl
  · intro m input p d hfv hnorm hdn hlf hal htk
    rw [computeMatch_indexed hfv]
    simp only [matchWithData]
    rw [hnorm, tokens_eq_nil_of_normalize_eq_empty hnorm]
    have e1 : ("" == d.normalizedDisplayName) = false := by
      rw [beq_eq_false_iff_ne]
      exact fun h => hdn h.symm
    have e2 : ("" == d.normalizedLastFirst) = false := by
      rw [beq_eq_false_iff_ne]
      exact fun h => hlf h.symm
    have e3 : (d.normalizedAliases.any fun a => "" == a) = false := by
      rw [List.any_eq_false]
      intro a ha h
      have he : "" = a := eq_of_beq h
      rw [← he] at ha
      exact hal ha
    have e4 : computeTokenSimilarity [] d.tokens = 0 := by
      unfold computeTokenSimilarity
      rw [if_neg (by simp [htk])]
      simp [Rat.mkRat_eq_div]
    have e4' : (decide (computeTokenSimilarity [] d.tokens ≥ mkRat 3 4)) =
        false := by
      rw [decide_eq_false_iff_not, e4, mkRat_three_four]
      norm_num
    rw [e1, e2, e3, e4']
    simp

/-- C7 witness. -/
theorem c7_fail_closed_witness :
    isNameMatchM ⟨[]⟩ (BCache.mkCache 3) (.str "xy") .notObj =
        (false, BCache.mkCache 3) ∧
      computeMatch
        ⟨[("p2", mkPlayerData ⟨"p2", "Tom", "Brady", "Tom Brady", []⟩)]⟩
        "?" ⟨"p2", "Tom", "Brady", "Tom Brady", []⟩ = false :=
  ⟨c7_fail_closed.2.2.2.1 ⟨[]⟩ (BCache.mkCache 3) (.str "xy"),
   c7_fail_closed.2.2.2.2.2
     ⟨[("p2", mkPlayerData ⟨"p2", "Tom", "Brady", "Tom Brady", []⟩)]⟩ "?"
     ⟨"p2", "Tom", "Brady", "Tom Brady", []⟩
     (mkPlayerData ⟨"p2", "Tom", "Brady", "Tom Brady", []⟩) (by decide)
     (by decide) (by decide) (by decide) (by decide) (by decide)⟩

/-! ## Game.tsx — the Round Engine composition (`onSubmitGuess`) -/

/-- `onSubmitGuess` from `src/src/pages/Game.tsx`: when the state is
`active`, ask the matcher for a verdict, dispatch `guess(text)`, and, if
the verdict was positive, dispatch `reveal(solved)`.  React applies the
queued dispatches to the reducer in order; a reducer throw on either
dispatch surfaces as an error (the component crashes).  When the state
is not `active` the handler returns without dispatching. -/
def onSubmitGuess (fm : Option Matcher) (c : BCache String Bool)
    (target : PlayerV) (state : RoundState) (text : String) (now : Int) :
    Except GameStateError RoundState × BCache String Bool :=
  match state with
  | .active st dl gs hu sc =>
    let pair := moduleIsNameMatch fm c (.str text) (.obj target)
    let r : Except GameStateError RoundState :=
      match reduce now (.active st dl gs hu sc) (.guess text) with
      | .error e => .error e
      | .ok s1 => if pair.1 then reduce now s1 (.reveal .solved) else .ok s1
    (r, pair.2)
  | s => (.ok s, c)

/-- Does the round end in `Revealed` with reason `solved`? -/
def endsSolved : Except GameStateError RoundState → Bool
  | .ok (.revealed _ .solved _ _ _) => true
  | _ => false

/-- C1: at the failing input — an active round holding the two distinct
recorded guesses `["a", "b"]` and a third distinct guess `"Tom Brady"`
that the matcher accepts — the composed engine does *not* end the round
`Revealed(solved)`: the `guess` dispatch already transitions to
`Revealed(maxGuesses)` (first conjunct), so the following
`reveal(solved)` dispatch throws `INVALID_TRANSITION` (third conjunct),
even though `isNameMatch` returned `true` (last conjunct). -/
theorem c1_third_matching_guess_not_solved :
    reduce 2 (.active 1 60001 ["a", "b"] 0 5) (.guess "Tom Brady") =
      .ok (.revealed 2 .maxGuesses 4 ["a", "b", "Tom Brady"] 0) ∧
    endsSolved (onSubmitGuess
      (some ⟨precomputePlayerData
        [.obj ⟨"p2", "Tom", "Brady", "Tom Brady", []⟩]⟩)
      (BCache.mkCache MAX_CACHE_SIZE)
      ⟨"p2", "Tom", "Brady", "Tom Brady", []⟩
      (.active 1 60001 ["a", "b"] 0 5) "Tom Brady" 2).1 = false ∧
    errCode (onSubmitGuess
      (some ⟨precomputePlayerData
        [.obj ⟨"p2", "Tom", "Brady", "Tom Brady", []⟩]⟩)
      (BCache.mkCache MAX_CACHE_SIZE)
      ⟨"p2", "Tom", "Brady", "Tom Brady", []⟩
      (.active 1 60001 ["a", "b"] 0 5) "Tom Brady" 2).1 =
      some .INVALID_TRANSITION ∧
    (moduleIsNameMatch
      (some ⟨precomputePlayerData
        [.obj ⟨"p2", "Tom", "Brady", "Tom Brady", []⟩]⟩)
      (BCache.mkCache MAX_CACHE_SIZE) (.str "Tom Brady")
      (.obj ⟨"p2", "Tom", "Brady", "Tom Brady", []⟩)).1 = true := by
  refine ⟨?_, ?_, ?_, ?_⟩
  · decide
  · decide
  · decide
  · decide

/-! ### C2 — the memoization cache versus cold computation

The cache key is `validInput.slice(0, 50) + ":" + player.id` — a prefix
of the *raw* input, so distinct inputs can share a key.  The lemmas
below isolate when a key determines its input: when the input is
shorter than the 50-character cap and input and id are colon-free, the
key parses uniquely. -/

theorem findVal_mem {K V : Type} [DecidableEq K] {l : List (K × V)}
    {k : K} {v : V} (h : BCache.findVal l k = some v) : (k, v) ∈ l := by
  induction l with
  | nil => simp [BCache.findVal] at h
  | cons p rest ih =>
    obtain ⟨k', v'⟩ := p
    unfold BCache.findVal at h
    by_cases hk : k' = k
    · rw [if_pos hk] at h
      injection h with hv
      subst hk
      subst hv
      exact List.mem_cons_self _ _
    · rw [if_neg hk] at h
      exact List.mem_cons_of_mem _ (ih h)

theorem mem_replaceVal {K V : Type} [DecidableEq K] {l : List (K × V)}
    {k : K} {v : V} {x : K × V} (h : x ∈ BCache.replaceVal l k v) :
    x ∈ l ∨ x = (k, v) := by
  induction l with
  | nil => simp [BCache.replaceVal] at h
  | cons p rest ih =>
    obtain ⟨k', v'⟩ := p
    unfold BCache.replaceVal at h
    by_cases hk : k' = k
    · rw [if_pos hk] at h
      rcases List.mem_cons.mp h with h | h
      · refine Or.inr ?_
        rw [h, hk]
      · exact Or.inl (List.mem_cons_of_mem _ h)
    · rw [if_neg hk] at h
      rcases List.mem_cons.mp h with h | h
      · refine Or.inl ?_
        rw [h]
        exact List.mem_cons_self _ _
      · rcases ih h with h | h
        · exact Or.inl (List.mem_cons_of_mem _ h)
        · exact Or.inr h

theorem mem_eraseKey {K V : Type} [DecidableEq K] {l : List (K × V)}
    {k : K} {x : K × V} (h : x ∈ BCache.eraseKey l k) : x ∈ l := by
  induction l with
  | nil => simp [BCache.eraseKey] at h
  | cons p rest ih =>
    obtain ⟨k', v'⟩ := p
    unfold BCache.eraseKey at h
    by_cases hk : k' = k
    · rw [if_pos hk] at h
      exact List.mem_cons_of_mem _ h
    · rw [if_neg hk] at h
      rcases List.mem_cons.mp h with h | h
      · rw [h]
        exact List.mem_cons_self _ _
      · exact List.mem_cons_of_mem _ (ih h)

theorem mem_evictLRU {K V : Type} [DecidableEq K] {c : BCache K V}
    {x : K × V} (h : x ∈ c.evictLRU.map) : x ∈ c.map := by
  unfold BCache.evictLRU at h
  cases hord : c.accessOrder with
  | nil =>
    rw [hord] at h
    exact h
  | cons lru rest =>
    rw [hord] at h
    exact mem_eraseKey h

/-- Every entry of `set k v c` was an entry of `c` or is `(k, v)`. -/
theorem mem_set {K V : Type} [DecidableEq K] {c : BCache K V} {k : K}
    {v : V} {x : K × V} (h : x ∈ (c.set k v).map) :
    x ∈ c.map ∨ x = (k, v) := by
  simp only [BCache.set] at h
  split at h
  · rw [BCache.map_moveToEnd] at h
    exact mem_replaceVal h
  · split at h
    · rcases List.mem_append.mp h with h | h
      · exact Or.inl (mem_evictLRU h)
      · exact Or.inr (List.mem_singleton.mp h)
    · rcases List.mem_append.mp h with h | h
      · exact Or.inl h
      · exact Or.inr (List.mem_singleton.mp h)

theorem map_get_snd {K V : Type} [DecidableEq K] (c : BCache K V)
    (k : K) : (c.get k).2.map = c.map := by
  unfold BCache.get
  cases BCache.findVal c.map k with
  | some v => exact BCache.map_moveToEnd c k
  | none => rfl

/-- Unique parsing of `u ++ ':' :: v` when `u` and `v` are colon-free. -/
theorem colon_split_unique {u v w z : List Char} (hu : ':' ∉ u)
    (hv : ':' ∉ v) (h : u ++ ':' :: v = w ++ ':' :: z) :
    w = u ∧ z = v := by
  induction u generalizing w with
  | nil =>
    cases w with
    | nil =>
      simp only [List.nil_append, List.cons.injEq] at h
      exact ⟨rfl, h.2.symm⟩
    | cons b w' =>
      simp only [List.nil_append, List.cons_append, List.cons.injEq] at h
      obtain ⟨hb, hrest⟩ := h
      exfalso
      apply hv
      rw [hrest]
      exact List.mem_append.mpr (Or.inr (List.mem_cons_self _ _))
  | cons a u' ih =>
    cases w with
    | nil =>
      simp only [List.cons_append, List.nil_append, List.cons.injEq] at h
      exact absurd (h.1 ▸ List.mem_cons_self a u') hu
    | cons b w' =>
      simp only [List.cons_append, List.cons.injEq] at h
      obtain ⟨hb, hrest⟩ := h
      obtain ⟨h1, h2⟩ := ih (fun hx => hu (List.mem_cons_of_mem _ hx)) hrest
      exact ⟨by rw [h1, hb], h2⟩

/-- When the stored input is shorter than the 50-character cap and both
it and the player id are colon-free, a colliding cache key forces the
colliding call's raw input and id to be identical. -/
theorem cache_key_parse {s qid i pid : String} (hi : ':' ∉ i.data)
    (hpid : ':' ∉ pid.data) (hlen : i.data.length < 50)
    (h : jsSlice 50 s ++ ":" ++ qid = i ++ ":" ++ pid) :
    s = i ∧ qid = pid := by
  have hdata : s.data.take 50 ++ ':' :: qid.data =
      i.data ++ ':' :: pid.data := by
    have := congrArg String.data h
    simpa [String.data_append, jsSlice] using this
  obtain ⟨h1, h2⟩ := colon_split_unique hi hpid hdata.symm
  have hslen : s.data.length < 50 := by
    by_contra hge
    have : (s.data.take 50).length = 50 := by
      rw [List.length_take]
      omega
    rw [h1] at this
    omega
  have : s.data = i.data := by
    rw [← h1, List.take_of_length_le (by omega)]
  exact ⟨String.ext this, String.ext h2⟩

/-- The consistency invariant for C2: every cache entry whose key
parses as a colon-free input shorter than 50 characters paired with the
given player id holds exactly the pure match verdict for that input. -/
def cacheConsistent (d : PlayerData) (pid : String)
    (c : BCache String Bool) : Prop :=
  ∀ (i : String) (v : Bool), ':' ∉ i.data → i.data.length < 50 →
    (i ++ ":" ++ pid, v) ∈ c.map → v = matchWithData d i

/-- One `isNameMatch` call — with arbitrary input and arbitrary target —
preserves the consistency invariant. -/
theorem cacheConsistent_isNameMatchM (m : Matcher) (pid : String)
    (d : PlayerData) (hpidcf : ':' ∉ pid.data)
    (hd : BCache.findVal m.playerData pid = some d)
    (c : BCache String Bool) (hc : cacheConsistent d pid c)
    (inp : JsVal) (t : TargetV) :
    cacheConsistent d pid (isNameMatchM m c inp t).2 := by
  cases inp with
  | notStr => exact hc
  | str s =>
    by_cases h0 : s.length = 0
    · simp only [isNameMatchM, validateInput, if_pos h0]
      cases validatePlayerE t with
      | error e => exact hc
      | ok p => simpa using hc
    · by_cases h200 : s.length > MAX_INPUT_LENGTH
      · simp only [isNameMatchM, validateInput, if_neg h0, if_pos h200]
        exact hc
      · simp only [isNameMatchM, validateInput, if_neg h0, if_neg h200]
        cases validatePlayerE t with
        | error e => exact hc
        | ok q =>
          simp only [if_neg h0]
          cases hfv : BCache.findVal c.map
              (jsSlice 50 s ++ ":" ++ q.id) with
          | some v =>
            simp only [BCache.get, hfv]
            intro i w hicf hilen hmem
            rw [BCache.map_moveToEnd] at hmem
            exact hc i w hicf hilen hmem
          | none =>
            simp only [BCache.get, hfv]
            intro i w hicf hilen hmem
            rcases mem_set hmem with hmem | hmem
            · exact hc i w hicf hilen hmem
            · have h1 : jsSlice 50 s ++ ":" ++ q.id = i ++ ":" ++ pid :=
                (congrArg Prod.fst hmem).symm
              have h2 : w = computeMatch m s q := congrArg Prod.snd hmem
              obtain ⟨hs, hq⟩ := cache_key_parse hicf hpidcf hilen h1
              rw [h2, hs]
              unfold computeMatch
              rw [hq, hd]

/-- Run a sequence of `isNameMatch` calls, threading the cache. -/
def runCalls (m : Matcher) (c : BCache String Bool) :
    List (JsVal × TargetV) → BCache String Bool
  | [] => c
  | (inp, t) :: rest => runCalls m (isNameMatchM m c inp t).2 rest

theorem cacheConsistent_runCalls (m : Matcher) (pid : String)
    (d : PlayerData) (hpidcf : ':' ∉ pid.data)
    (hd : BCache.findVal m.playerData pid = some d)
    (calls : List (JsVal × TargetV)) (c : BCache String Bool)
    (hc : cacheConsistent d pid c) :
    cacheConsistent d pid (runCalls m c calls) := by
  induction calls generalizing c with
  | nil => exact hc
  | cons ct rest ih =>
    exact ih _ (cacheConsistent_isNameMatchM m pid d hpidcf hd c hc
      ct.1 ct.2)

theorem jsSlice_eq_self {s : String} {n : Nat} (h : s.data.length ≤ n) :
    jsSlice n s = s := by
  unfold jsSlice
  rw [List.take_of_length_le h]

/-- On a consistent cache, a call with a colon-free input shorter than
50 characters against the indexed target returns exactly the pure
verdict `matchWithData d`, warm or cold. -/
theorem isNameMatchM_consistent_val (m : Matcher) (pid : String)
    (d : PlayerData) (c : BCache String Bool)
    (hc : cacheConsistent d pid c) (i : String) (p : PlayerV)
    (hicf : ':' ∉ i.data) (hilen : i.data.length < 50) (hine : i ≠ "")
    (hpid : p.id = pid) (hdisp : p.displayName ≠ "")
    (hd : BCache.findVal m.playerData pid = some d) :
    (isNameMatchM m c (.str i) (.obj p)).1 = matchWithData d i := by
  have hlen0 : ¬ i.length = 0 := by
    intro h0
    apply hine
    cases i with
    | mk data =>
      cases data with
      | nil => rfl
      | cons a as => simp [String.length] at h0
  have h200 : ¬ i.length > MAX_INPUT_LENGTH := by
    have : i.length = i.data.length := rfl
    unfold MAX_INPUT_LENGTH
    omega
  have hslice : jsSlice 50 i = i := jsSlice_eq_self (by omega)
  simp only [isNameMatchM, validateInput, validatePlayerE, if_neg hlen0,
    if_neg h200, if_neg hdisp]
  cases hfv : BCache.findVal c.map (jsSlice 50 i ++ ":" ++ p.id) with
  | some v =>
    simp only [BCache.get, hfv]
    have hmem := findVal_mem hfv
    rw [hslice, hpid] at hmem
    exact hc i v hicf hilen hmem
  | none =>
    simp only [BCache.get, hfv]
    unfold computeMatch
    rw [hpid, hd]

/-- C2 (amended): restricted to raw inputs that are non-empty, shorter
than the 50-character key prefix cap and colon-free, against an indexed
target whose id is colon-free, `isNameMatch` is cache-transparent: the
first call returns the cold `computeMatch` verdict, and a later call
whose input has the same normalized form returns the same boolean, no
matter which other `isNameMatch` calls (any inputs, any targets) were
made before or in between. -/
theorem c2_cache_transparent (m : Matcher) (p : PlayerV) (d : PlayerData)
    (pre mid : List (JsVal × TargetV)) (i1 i2 : String)
    (hd : BCache.findVal m.playerData p.id = some d)
    (hpcf : ':' ∉ p.id.data) (hdisp : p.displayName ≠ "")
    (h1cf : ':' ∉ i1.data) (h2cf : ':' ∉ i2.data)
    (h1len : i1.data.length < 50) (h2len : i2.data.length < 50)
    (h1ne : i1 ≠ "") (h2ne : i2 ≠ "")
    (hnorm : normalizeName i1 = normalizeName i2) :
    (isNameMatchM m (runCalls m (BCache.mkCache MAX_CACHE_SIZE) pre)
        (.str i1) (.obj p)).1 = computeMatch m i1 p ∧
    (isNameMatchM m
        (runCalls m
          (isNameMatchM m (runCalls m (BCache.mkCache MAX_CACHE_SIZE) pre)
            (.str i1) (.obj p)).2 mid)
        (.str i2) (.obj p)).1 =
      (isNameMatchM m (runCalls m (BCache.mkCache MAX_CACHE_SIZE) pre)
        (.str i1) (.obj p)).1 := by
  have hc0 : cacheConsistent d p.id (BCache.mkCache MAX_CACHE_SIZE) := by
    intro i v _ _ hmem
    simp [BCache.mkCache] at hmem
  have hcpre := cacheConsistent_runCalls m p.id d hpcf hd pre _ hc0
  have hc1 := cacheConsistent_isNameMatchM m p.id d hpcf hd _ hcpre
    (.str i1) (.obj p)
  have hcmid := cacheConsistent_runCalls m p.id d hpcf hd mid _ hc1
  have hv1 := isNameMatchM_consistent_val m p.id d _ hcpre i1 p h1cf
    h1len h1ne rfl hdisp hd
  have hv2 := isNameMatchM_consistent_val m p.id d _ hcmid i2 p h2cf
    h2len h2ne rfl hdisp hd
  constructor
  · rw [hv1]
    unfold computeMatch
    rw [hd]
  · rw [hv1, hv2]
    exact (matchWithData_congr d hnorm).symm

/-- C2 witness. -/
theorem c2_cache_transparent_witness :
    (isNameMatchM ⟨precomputePlayerData
        [.obj ⟨"p2", "Tom", "Brady", "Tom Brady", []⟩]⟩
      (runCalls ⟨precomputePlayerData
        [.obj ⟨"p2", "Tom", "Brady", "Tom Brady", []⟩]⟩
        (BCache.mkCache MAX_CACHE_SIZE) [])
      (.str "tom brady")
      (.obj ⟨"p2", "Tom", "Brady", "Tom Brady", []⟩)).1 =
    computeMatch ⟨precomputePlayerData
        [.obj ⟨"p2", "Tom", "Brady", "Tom Brady", []⟩]⟩
      "tom brady" ⟨"p2", "Tom", "Brady", "Tom Brady", []⟩ :=
  (c2_cache_transparent
    ⟨precomputePlayerData [.obj ⟨"p2", "Tom", "Brady", "Tom Brady", []⟩]⟩
    ⟨"p2", "Tom", "Brady", "Tom Brady", []⟩
    (mkPlayerData ⟨"p2", "Tom", "Brady", "Tom Brady", []⟩) [] []
    "tom brady" "Tom Brady" (by decide) (by decide) (by decide)
    (by decide) (by decide) (by decide) (by decide) (by decide)
    (by decide) (by decide)).1

/-- C2 counterexample: the cache key is a 50-character prefix of the
*raw* input, so two different inputs can share a key.  With a target
whose display name is 50 letters `a`, the 51-character input
`"a"*50 ++ "b"` (no match, cached under the key shared with `"a"*50`)
poisons the cache: the following call with input `"a"*50` returns the
cached `false`, while the call with `" " ++ "a"*50` — a *different* raw
string with the *same* normalized form `"a"*50` — computes `true`.
Two calls with the same normalized input and the same target thus
return different booleans, and the warm-cache result differs from the
cold computation (third conjunct). -/
theorem c2_cex_prefix_collision :
    normalizeName "aaaaaaaaaaaaaaaaaaaaaaaaaaaaaaaaaaaaaaaaaaaaaaaaaa" =
      normalizeName " aaaaaaaaaaaaaaaaaaaaaaaaaaaaaaaaaaaaaaaaaaaaaaaaaa" ∧
    (isNameMatchM ⟨precomputePlayerData
        [.obj ⟨"p1", "x", "y", "aaaaaaaaaaaaaaaaaaaaaaaaaaaaaaaaaaaaaaaaaaaaaaaaaa", []⟩]⟩
      (isNameMatchM ⟨precomputePlayerData
          [.obj ⟨"p1", "x", "y", "aaaaaaaaaaaaaaaaaaaaaaaaaaaaaaaaaaaaaaaaaaaaaaaaaa", []⟩]⟩
        (BCache.mkCache MAX_CACHE_SIZE)
        (.str "aaaaaaaaaaaaaaaaaaaaaaaaaaaaaaaaaaaaaaaaaaaaaaaaaab")
        (.obj ⟨"p1", "x", "y", "aaaaaaaaaaaaaaaaaaaaaaaaaaaaaaaaaaaaaaaaaaaaaaaaaa", []⟩)).2
      (.str "aaaaaaaaaaaaaaaaaaaaaaaaaaaaaaaaaaaaaaaaaaaaaaaaaa")
      (.obj ⟨"p1", "x", "y", "aaaaaaaaaaaaaaaaaaaaaaaaaaaaaaaaaaaaaaaaaaaaaaaaaa", []⟩)).1 = false ∧
    (isNameMatchM ⟨precomputePlayerData
        [.obj ⟨"p1", "x", "y", "aaaaaaaaaaaaaaaaaaaaaaaaaaaaaaaaaaaaaaaaaaaaaaaaaa", []⟩]⟩
      (isNameMatchM ⟨precomputePlayerData
          [.obj ⟨"p1", "x", "y", "aaaaaaaaaaaaaaaaaaaaaaaaaaaaaaaaaaaaaaaaaaaaaaaaaa", []⟩]⟩
        (isNameMatchM ⟨precomputePlayerData
            [.obj ⟨"p1", "x", "y", "aaaaaaaaaaaaaaaaaaaaaaaaaaaaaaaaaaaaaaaaaaaaaaaaaa", []⟩]⟩
          (BCache.mkCache MAX_CACHE_SIZE)
          (.str "aaaaaaaaaaaaaaaaaaaaaaaaaaaaaaaaaaaaaaaaaaaaaaaaaab")
          (.obj ⟨"p1", "x", "y", "aaaaaaaaaaaaaaaaaaaaaaaaaaaaaaaaaaaaaaaaaaaaaaaaaa", []⟩)).2
        (.str "aaaaaaaaaaaaaaaaaaaaaaaaaaaaaaaaaaaaaaaaaaaaaaaaaa")
        (.obj ⟨"p1", "x", "y", "aaaaaaaaaaaaaaaaaaaaaaaaaaaaaaaaaaaaaaaaaaaaaaaaaa", []⟩)).2
      (.str " aaaaaaaaaaaaaaaaaaaaaaaaaaaaaaaaaaaaaaaaaaaaaaaaaa")
      (.obj ⟨"p1", "x", "y", "aaaaaaaaaaaaaaaaaaaaaaaaaaaaaaaaaaaaaaaaaaaaaaaaaa", []⟩)).1 = true ∧
    computeMatch ⟨precomputePlayerData
        [.obj ⟨"p1", "x", "y", "aaaaaaaaaaaaaaaaaaaaaaaaaaaaaaaaaaaaaaaaaaaaaaaaaa", []⟩]⟩
      "aaaaaaaaaaaaaaaaaaaaaaaaaaaaaaaaaaaaaaaaaaaaaaaaaa"
      ⟨"p1", "x", "y", "aaaaaaaaaaaaaaaaaaaaaaaaaaaaaaaaaaaaaaaaaaaaaaaaaa", []⟩ = true := by
  refine ⟨?_, ?_, ?_, ?_⟩
  · decide
  · decide
  · decide
  · decide

/-! ### Sanity checks of the embedding on concrete inputs -/

example : normalizeName "Tom Brady" = "tom brady" := by decide
example : normalizeName "tom   brady" = "tom brady" := by decide
example : normalizeName "Tm Brady" = "tm brady" := by decide
example : tokens "Tm Brady" = ["tm", "brady"] := by decide
example :
    computeMatch ⟨precomputePlayerData
        [.obj ⟨"p2", "Tom", "Brady", "Tom Brady", []⟩]⟩
      "Tom Brady" ⟨"p2", "Tom", "Brady", "Tom Brady", []⟩ = true := by
  decide
example :
    computeMatch ⟨precomputePlayerData
        [.obj ⟨"p2", "Tom", "Brady", "Tom Brady", []⟩]⟩
      "tom   brady" ⟨"p2", "Tom", "Brady", "Tom Brady", []⟩ = true := by
  decide
example :
    computeMatch ⟨precomputePlayerData
        [.obj ⟨"p2", "Tom", "Brady", "Tom Brady", []⟩]⟩
      "Tm Brady" ⟨"p2", "Tom", "Brady", "Tom Brady", []⟩ = true := by
  decide
example :
    (isNameMatchM ⟨precomputePlayerData
        [.obj ⟨"p2", "Tom", "Brady", "Tom Brady", []⟩]⟩
      (BCache.mkCache MAX_CACHE_SIZE) (.str "Tm Brady")
      (.obj ⟨"p2", "Tom", "Brady", "Tom Brady", []⟩)).1 = true := by
  decide
example :
    (isNameMatchM ⟨precomputePlayerData
        [.obj ⟨"p1", "", "", "Tom Brady", []⟩]⟩
      (BCache.mkCache MAX_CACHE_SIZE) (.str "Tom Brady")
      (.obj ⟨"p1", "", "", "Tom Brady", []⟩)).1 = true := by
  decide
example :
    (isNameMatchM ⟨precomputePlayerData
        [.obj ⟨"p1", "", "", "Tom Brady", []⟩]⟩
      (BCache.mkCache MAX_CACHE_SIZE) (.str ".")
      (.obj ⟨"p1", "", "", "Tom Brady", []⟩)).1 = true := by
  decide

example : sanitizeGuess "  Tom   Brady  " = "Tom Brady" := by decide
example : jsTrim " \t " = "" := by decide
example : clampScore (-3) = 0 ∧ clampScore 42 = 10 := by decide
example : reduce 1000000 .idle .start =
    .ok (.active 1000000 1060000 [] 0 5) := by decide

end Trivia
